import Mathlib

/-!
Verification of the result-aggregation pipeline of `analyze_results.py`.

The script walks a directory tree of CSV result files, parses a method name
and hyperparameters from each filename, computes per-file summary statistics,
merges them into one sorted summary table, rounds the displayed columns and
writes the table; it finally prints grouped descriptive statistics.

The embedding below models the numeric values as exact rationals (`ℚ`), with
an explicit `nan` constructor mirroring the float NaN that pandas produces
for the mean of an empty column.  Rounding models pandas' round-half-to-even.
-/

/-- A pandas numeric cell: either NaN or an (exact, rational) number. -/
inductive PVal where
  | nan : PVal
  | val : ℚ → PVal
deriving DecidableEq

/-- Round-half-to-even to the nearest integer (numpy/pandas rounding). -/
def rqHalfEven (q : ℚ) : ℤ :=
  let f := Rat.floor q
  let frac := q - (f : ℚ)
  if frac < 1/2 then f
  else if 1/2 < frac then f + 1
  else if 2 ∣ f then f else f + 1

/-- Truncation toward zero, the semantics of numpy's float→int `astype`. -/
def ratTrunc (q : ℚ) : ℤ :=
  if q < 0 then -(Rat.floor (-q)) else Rat.floor q

/-- `Series.round(d)`: round to `d` decimal places, NaN passes through. -/
def proundDigits (d : ℕ) : PVal → PVal
  | PVal.nan => PVal.nan
  | PVal.val q => PVal.val ((rqHalfEven (q * (10 : ℚ) ^ d) : ℚ) / (10 : ℚ) ^ d)

/-- `astype(int)` on a cell: raises (`none`) on NaN, truncates otherwise. -/
def pAstypeInt : PVal → Option ℤ
  | PVal.nan => none
  | PVal.val q => some (ratTrunc q)

/-- `Series.mean()`: NaN on an empty column, otherwise sum / length. -/
def pmean (l : List ℚ) : PVal :=
  if l.length = 0 then PVal.nan else PVal.val (l.sum / (l.length : ℚ))

/-!
### Filename parser (`parse_method_from_filename`, lines 14–34)

Python strings are modelled as `List Char` internally; `String` at the API
boundary.  `str.replace('.csv', '')` removes every (leftmost, non-overlapping)
occurrence of `.csv`, `str.split('_')` splits on each underscore, and
`re.match(r'([A-Za-z]+)(\d+)', part)` is a *prefix* match: a maximal leading
run of ASCII letters followed by a maximal run of digits, with any trailing
characters ignored.  (Python's `\d` also accepts non-ASCII Unicode digits;
the filenames in scope are ASCII, so `Char.isDigit` is used.)
-/

/-- `base.replace('.csv', '')`: drop every occurrence of `.csv`. -/
def removeCsv : List Char → List Char
  | '.' :: 'c' :: 's' :: 'v' :: rest => removeCsv rest
  | c :: cs => c :: removeCsv cs
  | [] => []

/-- `str.split(sep)` for a single-character separator. -/
def splitOnChar (sep : Char) : List Char → List (List Char)
  | [] => [[]]
  | c :: cs =>
    if c = sep then [] :: splitOnChar sep cs
    else
      match splitOnChar sep cs with
      | [] => [[c]]
      | p :: ps => (c :: p) :: ps

/-- `re.match(r'([A-Za-z]+)(\d+)', part)`: the two captured groups, or
`none` when the token has no leading letters-then-digits prefix. -/
def tokenParam (part : List Char) : Option (List Char × List Char) :=
  let alpha := part.takeWhile Char.isAlpha
  let rest := part.dropWhile Char.isAlpha
  let digits := rest.takeWhile Char.isDigit
  if alpha = [] ∨ digits = [] then none else some (alpha, digits)

/-- `params[k] = v` on a Python dict kept as an association list: an existing
key keeps its position and gets the new value, a new key is appended. -/
def dictInsert : List (String × String) → String → String → List (String × String)
  | [], k, v => [(k, v)]
  | (k', v') :: rest, k, v =>
    if k' = k then (k, v) :: rest else (k', v') :: dictInsert rest k v

/-- Lines 14–34 of `analyze_results.py`. -/
def parse_method_from_filename (filename : String) : String × List (String × String) :=
  let base_name := removeCsv filename.toList
  let parts := splitOnChar '_' base_name
  let method := String.mk (parts.headD [])
  let params := (parts.drop 1).foldl
    (fun acc part =>
      match tokenParam part with
      | some kv => dictInsert acc (String.mk kv.1) (String.mk kv.2)
      | none => acc) []
  (method, params)

example : parse_method_from_filename "PFL_Ta8_cf20.csv" =
    ("PFL", [("Ta", "8"), ("cf", "20")]) := by decide

/-!
### Per-file analysis (`analyze_csv_file`, lines 36–58)

`pd.read_csv` either raises (unreadable / malformed file, modelled by
`CsvRead.failed`) or yields a table with a column set and data rows.  The
function then reads the three required columns; a missing column raises a
`KeyError`.  Every exception is caught, logged and turned into `None`.
-/

/-- One data row of a result file, as the three numeric columns used. -/
structure CsvRow where
  success : ℚ
  n_steps : ℚ
  critical_collisions : ℚ
deriving DecidableEq

/-- A successfully read CSV table: its column names and its rows. -/
structure CsvData where
  columns : List String
  rows : List CsvRow
deriving DecidableEq

/-- Outcome of `pd.read_csv`: an exception, or a parsed table. -/
inductive CsvRead where
  | failed : CsvRead
  | parsed : CsvData → CsvRead
deriving DecidableEq

/-- The per-file summary statistics returned by `analyze_csv_file`. -/
structure FileStats where
  n_runs : ℕ
  success_rate : PVal
  mean_steps : PVal
  total_critical_collisions : ℚ
  mean_critical_collisions : PVal
deriving DecidableEq

/-- Lines 36–58 of `analyze_results.py`: `none` models the caught exception
(read failure or a required column missing). -/
def analyze_csv_file (r : CsvRead) : Option FileStats :=
  match r with
  | CsvRead.failed => none
  | CsvRead.parsed d =>
    if "success" ∈ d.columns ∧ "n_steps" ∈ d.columns ∧
        "critical_collisions" ∈ d.columns then
      some { n_runs := d.rows.length
             success_rate := pmean (d.rows.map (·.success))
             mean_steps := pmean (d.rows.map (·.n_steps))
             total_critical_collisions := (d.rows.map (·.critical_collisions)).sum
             mean_critical_collisions := pmean (d.rows.map (·.critical_collisions)) }
    else none

/-!
### The main pipeline (`main`, lines 60–175)

A discovered file is its path relative to the results root (the list of path
segments produced by `relative_to(results_dir).parts`) together with the
outcome of reading it.  The root itself is `Option (List DiscoveredFile)`:
`none` models a missing results directory, `some files` the `rglob("*.csv")`
sequence in discovery order.
-/

/-- The hard-coded results root of line 64. -/
def results_dir : String := "/home/jakob/Promotion/code/robomimic/results"

/-- One `rglob` hit: relative path segments plus the file's content. -/
structure DiscoveredFile where
  parts : List String
  content : CsvRead
deriving DecidableEq

/-- `str(csv_file)`: the absolute path of a discovered file. -/
def pathString (parts : List String) : String :=
  results_dir ++ "/" ++ String.intercalate "/" parts

/-- Is `pat` a leading subsequence of `s`? -/
def prefixMatch : List Char → List Char → Bool
  | [], _ => true
  | _ :: _, [] => false
  | p :: ps, c :: cs => p = c && prefixMatch ps cs

/-- Python's `pat in s` substring test. -/
def substrMatch (pat : List Char) : List Char → Bool
  | [] => prefixMatch pat []
  | c :: cs => prefixMatch pat (c :: cs) || substrMatch pat cs

/-- One entry of `individual_results` (lines 99–114). -/
structure RunEntry where
  Environment : String
  Method_Dir : String
  Method : String
  Horizon : PVal
  Success_Rate : PVal
  N_Critical_Collisions : ℚ
  Mean_Critical_Collisions : PVal
  N_Runs : ℕ
  params : List (String × String)
deriving DecidableEq

/-- Python's `str.capitalize()`: first character uppercased, the rest
lowercased. -/
def pyCapitalize (s : String) : String :=
  match s.toList with
  | [] => ""
  | c :: cs => String.mk (c.toUpper :: cs.map Char.toLower)

/-- Accumulator of the discovery loop: collected entries and console log. -/
structure LoopState where
  entries : List RunEntry
  logs : List String
deriving DecidableEq

/-- The body of the `for csv_file in results_dir.rglob("*.csv")` loop
(lines 74–115).  `path_parts[1]` (the `ph` directory) is read but unused,
exactly as in the source. -/
def processFile (st : LoopState) (f : DiscoveredFile) : LoopState :=
  if f.parts.length < 4 then st
  else
    let environment := f.parts.getD 0 ""
    let method_dir := f.parts.getD 2 ""
    let filename := f.parts.getD 3 ""
    if substrMatch "video".toList (pathString f.parts).toList then st
    else
      let mp := parse_method_from_filename filename
      match analyze_csv_file f.content with
      | none =>
        { st with logs := st.logs ++ ["Error processing " ++ pathString f.parts] }
      | some stats =>
        { entries := st.entries ++ [{
            Environment := pyCapitalize environment
            Method_Dir := method_dir
            Method := mp.1
            Horizon := stats.mean_steps
            Success_Rate := stats.success_rate
            N_Critical_Collisions := stats.total_critical_collisions
            Mean_Critical_Collisions := stats.mean_critical_collisions
            N_Runs := stats.n_runs
            params := mp.2 }]
          logs := st.logs ++
            ["Processed: " ++ environment ++ "/" ++ method_dir ++ "/" ++ filename] }

/-- The whole discovery loop. -/
def processAll (files : List DiscoveredFile) : LoopState :=
  files.foldl processFile { entries := [], logs := [] }

/-- The DataFrame's `Param_*` column list: parameter keys in order of first
appearance across the entries (pandas builds the column union this way when
constructing a frame from a list of dicts). -/
def allParamKeys (entries : List RunEntry) : List String :=
  entries.foldl
    (fun acc e => e.params.foldl
      (fun a kv => if kv.1 ∈ a then a else a ++ [kv.1]) acc) []

/-- Association-list lookup (a present `Param_` cell, `none` = NaN cell). -/
def lookupParam : List (String × String) → String → Option String
  | [], _ => none
  | (k', v) :: rest, k => if k' = k then some v else lookupParam rest k

/-- Lines 125–129: `Method_Full`.  The `apply` lambda tests
`any(row.index.str.startswith('Param_'))`, i.e. whether the *DataFrame* has
any `Param_` column at all; when it does, the suffix joins `f"{k}{v}"` over
every `Param_` column of the frame, so a row lacking a parameter contributes
its NaN cell as the string `"nan"`. -/
def method_full (keys : List String) (e : RunEntry) : String :=
  e.Method ++
    (if keys.isEmpty then ""
     else "_" ++ String.intercalate "_" (keys.map fun k =>
        k ++ (match lookupParam e.params k with
              | some v => v
              | none => "nan")))


/-!
### Sorting (line 132)

`sort_values(['Environment', 'Method', 'Method_Full'])` with several keys
uses numpy's `lexsort`, which is stable: ties keep their original relative
order.  A stable sort by a key is the sort by the key extended with the
original position, which is how it is modelled: entries are tagged with
their discovery index, merge-sorted by (key, index), and untagged.
-/

/-- The three-string sort key of a (entry, Method_Full) pair. -/
def keyOf (e : RunEntry × String) : String × String × String :=
  (e.1.Environment, e.1.Method, e.2)

/-- Strict lexicographic order on character lists, comparing code points. -/
def listLtB : List Char → List Char → Bool
  | [], [] => false
  | [], _ :: _ => true
  | _ :: _, [] => false
  | a :: as, b :: bs =>
    if a.toNat < b.toNat then true
    else if b.toNat < a.toNat then false
    else listLtB as bs

/-- Python's case-sensitive `<` on strings: lexicographic by code point. -/
def strLt (s t : String) : Bool := listLtB s.toList t.toList

/-- Strict lexicographic order on the three-string sort key. -/
def tripleLt (a b : String × String × String) : Prop :=
  strLt a.1 b.1 ∨ (a.1 = b.1 ∧ (strLt a.2.1 b.2.1 ∨ (a.2.1 = b.2.1 ∧ strLt a.2.2 b.2.2)))

instance (a b : String × String × String) : Decidable (tripleLt a b) := by
  unfold tripleLt; infer_instance

/-- Comparator of the stable sort: key order, ties broken by position. -/
def entryLe (a b : ℕ × (RunEntry × String)) : Bool :=
  decide (tripleLt (keyOf a.2) (keyOf b.2)) ||
    (decide (keyOf a.2 = keyOf b.2) && decide (a.1 ≤ b.1))

/-- Insert into a sorted list (first position where `le` holds). -/
def insertLe (le : α → α → Bool) (a : α) : List α → List α
  | [] => [a]
  | b :: l => if le a b then a :: b :: l else b :: insertLe le a l

/-- Insertion sort.  For a total, transitive, antisymmetric comparator the
sorted permutation is unique, so any sorting algorithm computes the same
list; insertion sort is used because it is structurally recursive and hence
kernel-computable. -/
def isortLe (le : α → α → Bool) : List α → List α
  | [] => []
  | a :: l => insertLe le a (isortLe le l)

/-- Line 132: the stable three-key sort of the summary rows.  A stable sort
by a key is exactly the sort by (key, original position) — the comparator
`entryLe` — applied to the position-tagged rows. -/
def sortSummary (l : List (RunEntry × String)) : List (RunEntry × String) :=
  (isortLe entryLe l.enum).map (·.2)

/-!
### Rounding and export (lines 134–151)

Column selection (lines 134–140) fixes the output schema; the `Param_*`
columns keep their first-seen order and a missing parameter is a NaN cell
(`none`).  Lines 143–147 round in place: `Horizon` and
`N_Critical_Collisions` are rounded to integers and cast with
`astype(int)` — a cast that *raises* on NaN, which happens exactly when a
file had zero rows (its `mean_steps` is NaN).
-/

/-- One row of the exported `experiment_summary.csv`, in column order. -/
structure FinalRow where
  Environment : String
  Method : String
  Method_Full : String
  Horizon : ℤ
  Success_Rate : PVal
  N_Critical_Collisions : ℤ
  Mean_Critical_Collisions : PVal
  Method_Dir : String
  N_Runs : ℕ
  paramCells : List (String × Option String)
deriving DecidableEq

/-- Lines 143–147 applied to one row; `none` models the uncaught
`astype(int)` exception on a NaN `Horizon`. -/
def finalize (keys : List String) (e : RunEntry × String) : Option FinalRow :=
  match pAstypeInt (proundDigits 0 e.1.Horizon) with
  | none => none
  | some h =>
    some { Environment := e.1.Environment
           Method := e.1.Method
           Method_Full := e.2
           Horizon := h
           Success_Rate := proundDigits 4 e.1.Success_Rate
           N_Critical_Collisions := rqHalfEven e.1.N_Critical_Collisions
           Mean_Critical_Collisions := proundDigits 2 e.1.Mean_Critical_Collisions
           Method_Dir := e.1.Method_Dir
           N_Runs := e.1.N_Runs
           paramCells := keys.map fun k => (k, lookupParam e.1.params k) }

/-- Overall outcome of one invocation of `main()`. -/
inductive RunResult where
  | rootMissing : RunResult
  | noFiles : RunResult
  | crashed : RunResult
  | written : List FinalRow → RunResult
deriving DecidableEq

/-- Console log plus terminal state of a run. -/
structure RunOutcome where
  logs : List String
  result : RunResult
deriving DecidableEq

/-- Lines 117–151: everything after the discovery loop. -/
def summarize (st : LoopState) : RunOutcome :=
  if st.entries.isEmpty then
    { logs := st.logs ++ ["No CSV files found to process!"], result := RunResult.noFiles }
  else
    let keys := allParamKeys st.entries
    let withFull := st.entries.map (fun e => (e, method_full keys e))
    let sorted := sortSummary withFull
    match sorted.mapM (finalize keys) with
    | none => { logs := st.logs, result := RunResult.crashed }
    | some rows =>
      { logs := st.logs ++
          ["Summary saved to: " ++ results_dir ++ "/experiment_summary.csv"]
        result := RunResult.written rows }

/-- `main()` (lines 60–175).  `none` models a missing results directory. -/
def main_run (root : Option (List DiscoveredFile)) : RunOutcome :=
  match root with
  | none =>
    { logs := ["Results directory not found: " ++ results_dir]
      result := RunResult.rootMissing }
  | some files => summarize (processAll files)

/-!
### Grouped descriptive statistics (lines 156–171)

The two `groupby(...).agg(...)` views are computed on `summary_df` *after*
the in-place rounding of lines 143–147, and are then `.round(4)`-ed for
display.  Only the `count` and `mean` channels are modelled; the `std`
channel is the square root of the sample variance and has no exact rational
representation (the square root does not change which inputs the statistic
is computed from, which is what the claims are about).
-/

/-- Cells of a column that pandas aggregations see as non-NA. -/
def pvalsToRats (l : List PVal) : List ℚ :=
  l.filterMap fun p => match p with | PVal.nan => none | PVal.val q => some q

/-- The rows of one group (`groupby(key)` at group label `k`). -/
def groupRows (rows : List FinalRow) (key : FinalRow → String) (k : String) :
    List FinalRow :=
  rows.filter fun r => key r = k

/-- Grouped `count` of `Success_Rate` (non-NA cells). -/
def groupCount (rows : List FinalRow) (key : FinalRow → String) (k : String) : ℕ :=
  (pvalsToRats ((groupRows rows key k).map (·.Success_Rate))).length

/-- Grouped `mean` of `Success_Rate`, rounded for display. -/
def groupSuccessMean (rows : List FinalRow) (key : FinalRow → String) (k : String) :
    PVal :=
  proundDigits 4 (pmean (pvalsToRats ((groupRows rows key k).map (·.Success_Rate))))

/-- Grouped `mean` of `Horizon`, rounded for display. -/
def groupHorizonMean (rows : List FinalRow) (key : FinalRow → String) (k : String) :
    PVal :=
  proundDigits 4 (pmean ((groupRows rows key k).map fun r => ((r.Horizon : ℚ))))

/-- Grouped `mean` of `N_Critical_Collisions`, rounded for display. -/
def groupCollisionMean (rows : List FinalRow) (key : FinalRow → String) (k : String) :
    PVal :=
  proundDigits 4 (pmean ((groupRows rows key k).map fun r =>
    ((r.N_Critical_Collisions : ℚ))))

/-!
### Concrete run inputs used by the claim theorems
-/

/-- The three required columns, in file order. -/
def cols3 : List String := ["success", "n_steps", "critical_collisions"]

/-- Two valid files in one run: one with a `Ta8` parameter token, one with a
parameter-less filename `CA.csv`. -/
def c1files : List DiscoveredFile :=
  [ ⟨["lift", "ph", "m1", "PFL_Ta8.csv"], CsvRead.parsed ⟨cols3, [⟨1, 100, 0⟩]⟩⟩,
    ⟨["lift", "ph", "m2", "CA.csv"], CsvRead.parsed ⟨cols3, [⟨1, 100, 0⟩]⟩⟩ ]

/-- A valid one-row file next to a readable file with zero data rows. -/
def c2files : List DiscoveredFile :=
  [ ⟨["lift", "ph", "m1", "Good.csv"], CsvRead.parsed ⟨cols3, [⟨1, 100, 0⟩]⟩⟩,
    ⟨["lift", "ph", "m2", "Empty.csv"], CsvRead.parsed ⟨cols3, []⟩⟩ ]

/-- An existing root whose only file is readable but has zero data rows. -/
def c7files : List DiscoveredFile :=
  [ ⟨["can", "ph", "m", "X.csv"], CsvRead.parsed ⟨cols3, []⟩⟩ ]

/-- C1: the claim says a row whose filename has no parameter tokens always has
`Method_Full = Method`, regardless of the parameter keys of other rows.  The
code violates this: the `Param_Ta` column introduced by the sibling file
`PFL_Ta8.csv` makes the frame-wide `any(row.index.str.startswith('Param_'))`
test true, and the parameter-less `CA` row's NaN cell is string-formatted
into its suffix, yielding `Method_Full = "CA_Tanan" ≠ "CA"`. -/
theorem c1_method_full_nan_leak :
    (main_run (some c1files)).result = RunResult.written
      [ { Environment := "Lift", Method := "CA", Method_Full := "CA_Tanan",
          Horizon := 100, Success_Rate := PVal.val 1, N_Critical_Collisions := 0,
          Mean_Critical_Collisions := PVal.val 0, Method_Dir := "m2", N_Runs := 1,
          paramCells := [("Ta", none)] },
        { Environment := "Lift", Method := "PFL", Method_Full := "PFL_Ta8",
          Horizon := 100, Success_Rate := PVal.val 1, N_Critical_Collisions := 0,
          Mean_Critical_Collisions := PVal.val 0, Method_Dir := "m1", N_Runs := 1,
          paramCells := [("Ta", some "8")] } ]
    ∧ ("CA_Tanan" : String) ≠ "CA" := by with_unfolding_all decide

/-- C2: the claim says a zero-row file gets a deterministic NaN policy and the
run still completes.  The per-file summarizer indeed returns NaN means, but
`summary_df['Horizon'].round(0).astype(int)` then raises on that NaN, so the
whole run crashes and not even the valid sibling file's row is written. -/
theorem c2_zero_row_file_crashes_run :
    analyze_csv_file (CsvRead.parsed ⟨cols3, []⟩) =
      some { n_runs := 0, success_rate := PVal.nan, mean_steps := PVal.nan,
             total_critical_collisions := 0, mean_critical_collisions := PVal.nan }
    ∧ (main_run (some c2files)).result = RunResult.crashed := by with_unfolding_all decide

/-- C7: a missing root is reported and produces no output, as claimed — but it
is not the only fatal condition: an existing root containing a readable
zero-row CSV also aborts the whole run (uncaught `astype(int)` on NaN). -/
theorem c7_root_missing_not_only_fatal :
    main_run none = { logs := ["Results directory not found: " ++ results_dir],
                      result := RunResult.rootMissing }
    ∧ (main_run (some c7files)).result = RunResult.crashed
    ∧ RunResult.crashed ≠ RunResult.rootMissing := by with_unfolding_all decide

/-- C3 counterexample: the claim says a token with trailing extra characters
after the digits (here `Ta8x`) is skipped and contributes no parameter; the
parser's `re.match` is a prefix match, so `Ta8x` *does* contribute `Ta → 8`. -/
theorem c3_trailing_chars_not_skipped :
    parse_method_from_filename "M_Ta8x.csv" = ("M", [("Ta", "8")])
    ∧ ([("Ta", "8")] : List (String × String)) ≠ [] := by decide

/-!
### Character-class and parser lemmas
-/

theorem digit_not_alpha {c : Char} (h : c.isDigit = true) : c.isAlpha = false := by
  simp only [Char.isDigit, Char.isAlpha, Char.isUpper, Char.isLower, Bool.and_eq_true,
    decide_eq_true_eq, Bool.or_eq_false_iff, Bool.and_eq_false_iff, UInt32.le_def,
    UInt32.lt_def, BitVec.le_def, BitVec.lt_def, decide_eq_false_iff_not, not_le] at *
  have e48 : (UInt32.toBitVec 48).toNat = 48 := by decide
  have e57 : (UInt32.toBitVec 57).toNat = 57 := by decide
  have e65 : (UInt32.toBitVec 65).toNat = 65 := by decide
  have e90 : (UInt32.toBitVec 90).toNat = 90 := by decide
  have e97 : (UInt32.toBitVec 97).toNat = 97 := by decide
  have e122 : (UInt32.toBitVec 122).toNat = 122 := by decide
  omega

theorem alpha_ne_dot {c : Char} (h : c.isAlpha = true) : c ≠ '.' := by
  intro e; subst e; simp at h

theorem alpha_ne_us {c : Char} (h : c.isAlpha = true) : c ≠ '_' := by
  intro e; subst e; simp at h

theorem digit_ne_dot {c : Char} (h : c.isDigit = true) : c ≠ '.' := by
  intro e; subst e; simp at h

theorem digit_ne_us {c : Char} (h : c.isDigit = true) : c ≠ '_' := by
  intro e; subst e; simp at h

theorem removeCsv_cons_ne {c : Char} (hc : c ≠ '.') (t : List Char) :
    removeCsv (c :: t) = c :: removeCsv t := by
  match t with
  | [] => simp [removeCsv]
  | [t1] => simp [removeCsv]
  | [t1, t2] => simp [removeCsv]
  | t1 :: t2 :: t3 :: rest => simp [removeCsv, hc]

theorem removeCsv_append_csv (l : List Char) (h : ∀ c ∈ l, c ≠ '.') :
    removeCsv (l ++ ['.', 'c', 's', 'v']) = l := by
  induction l with
  | nil => decide
  | cons c cs ih =>
    rw [List.cons_append, removeCsv_cons_ne (h c (List.mem_cons_self _ _))]
    rw [ih fun x hx => h x (List.mem_cons_of_mem c hx)]

theorem splitOnChar_ne_nil (sep : Char) (l : List Char) : splitOnChar sep l ≠ [] := by
  induction l with
  | nil => simp [splitOnChar]
  | cons c cs ih =>
    simp only [splitOnChar]
    split
    · simp
    · cases hs : splitOnChar sep cs with
      | nil => exact absurd hs ih
      | cons p pss => simp

theorem splitOnChar_cons_ne {sep c : Char} (h : c ≠ sep) (l : List Char) :
    splitOnChar sep (c :: l) =
      (c :: (splitOnChar sep l).headD []) :: (splitOnChar sep l).tail := by
  simp only [splitOnChar, if_neg h]
  cases hs : splitOnChar sep l with
  | nil => exact absurd hs (splitOnChar_ne_nil sep l)
  | cons p ps => simp

theorem splitOnChar_no_sep {sep : Char} (l : List Char) (h : ∀ c ∈ l, c ≠ sep) :
    splitOnChar sep l = [l] := by
  induction l with
  | nil => rfl
  | cons c cs ih =>
    rw [splitOnChar_cons_ne (h c (List.mem_cons_self _ _))]
    rw [ih fun x hx => h x (List.mem_cons_of_mem c hx)]
    simp

theorem splitOnChar_append_sep {sep : Char} (l rest : List Char)
    (h : ∀ c ∈ l, c ≠ sep) :
    splitOnChar sep (l ++ sep :: rest) = l :: splitOnChar sep rest := by
  induction l with
  | nil => simp [splitOnChar]
  | cons c cs ih =>
    rw [List.cons_append, splitOnChar_cons_ne (h c (List.mem_cons_self _ _))]
    rw [ih fun x hx => h x (List.mem_cons_of_mem c hx)]
    simp

theorem tokenParam_split (α δ ρ : List Char)
    (hα : α ≠ []) (hαa : ∀ c ∈ α, c.isAlpha = true)
    (hδ : δ ≠ []) (hδd : ∀ c ∈ δ, c.isDigit = true)
    (hρ : ∀ c, ρ.head? = some c → c.isDigit = false) :
    tokenParam (α ++ (δ ++ ρ)) = some (α, δ) := by
  obtain ⟨d, δ', rfl⟩ : ∃ d δ', δ = d :: δ' := by
    cases δ with
    | nil => exact absurd rfl hδ
    | cons d δ' => exact ⟨d, δ', rfl⟩
  have hd : (d :: δ').head?.isSome := rfl
  have hdd : d.isDigit = true := hδd d (List.mem_cons_self _ _)
  have hda : d.isAlpha = false := digit_not_alpha hdd
  have htw : (α ++ (d :: δ' ++ ρ)).takeWhile Char.isAlpha = α := by
    rw [List.takeWhile_append_of_pos hαa, List.cons_append,
      List.takeWhile_cons_of_neg (by simp [hda]), List.append_nil]
  have hdw : (α ++ (d :: δ' ++ ρ)).dropWhile Char.isAlpha = d :: δ' ++ ρ := by
    rw [List.dropWhile_append_of_pos hαa, List.cons_append,
      List.dropWhile_cons_of_neg (by simp [hda])]
  have htd : (d :: δ' ++ ρ).takeWhile Char.isDigit = d :: δ' := by
    rw [show (d :: δ' ++ ρ : List Char) = (d :: δ') ++ ρ by simp,
      List.takeWhile_append_of_pos hδd]
    cases ρ with
    | nil => simp
    | cons r rs =>
      rw [List.takeWhile_cons_of_neg (by simp [hρ r rfl])]
      simp
  simp only [tokenParam, htw, hdw, htd]
  rw [if_neg]
  simp [hα]

theorem tokenParam_no_alpha {c : Char} (hc : c.isAlpha = false) (cs : List Char) :
    tokenParam (c :: cs) = none := by
  have h1 : (c :: cs).takeWhile Char.isAlpha = [] :=
    List.takeWhile_cons_of_neg (by simp [hc])
  simp [tokenParam, h1]

theorem tokenParam_no_digits (α ρ : List Char)
    (hαa : ∀ c ∈ α, c.isAlpha = true)
    (hρ : ∀ c, ρ.head? = some c → c.isAlpha = false ∧ c.isDigit = false) :
    tokenParam (α ++ ρ) = none := by
  have hdw : (α ++ ρ).dropWhile Char.isAlpha = ρ.dropWhile Char.isAlpha :=
    List.dropWhile_append_of_pos hαa
  cases ρ with
  | nil =>
    have hd : α.dropWhile Char.isAlpha = [] :=
      List.dropWhile_eq_nil_iff.2 hαa
    rw [List.append_nil]
    simp [tokenParam, hd]
  | cons c cs =>
    have hc := hρ c rfl
    have h2 : (c :: cs).dropWhile Char.isAlpha = c :: cs :=
      List.dropWhile_cons_of_neg (by simp [hc.1])
    have h3 : (c :: cs).takeWhile Char.isDigit = [] :=
      List.takeWhile_cons_of_neg (by simp [hc.2])
    simp [tokenParam, hdw, h2, h3]

/-- C3 (amended): a token after the first is recorded as a parameter exactly
by a *prefix* match — a maximal leading run of letters `α` followed by a
maximal run of digits `δ` is recorded as `α → δ` even when arbitrary trailing
characters `ρ` follow (only the first character of `ρ` must not extend the
digit run).  Tokens with no such prefix are skipped and contribute nothing:
a token that does not start with a letter (e.g. digits before letters), and
a token whose leading letter run is not immediately followed by a digit
(letters only, like `Tax`, or letters followed by another non-digit
character, like `Ta!8`). -/
theorem c3_amended_prefix_param (α δ ρ : List Char)
    (hα : α ≠ []) (hαa : ∀ c ∈ α, c.isAlpha = true)
    (hδ : δ ≠ []) (hδd : ∀ c ∈ δ, c.isDigit = true)
    (hρ : ∀ c, ρ.head? = some c → c.isDigit = false) :
    tokenParam (α ++ (δ ++ ρ)) = some (α, δ)
    ∧ (∀ (c : Char) (cs : List Char), c.isAlpha = false → tokenParam (c :: cs) = none)
    ∧ (∀ β σ : List Char, (∀ c ∈ β, c.isAlpha = true) →
        (∀ c, σ.head? = some c → c.isAlpha = false ∧ c.isDigit = false) →
        tokenParam (β ++ σ) = none) :=
  ⟨tokenParam_split α δ ρ hα hαa hδ hδd hρ,
   fun c cs hc => tokenParam_no_alpha hc cs,
   fun β σ hβ hσ => tokenParam_no_digits β σ hβ hσ⟩

/-- Witness for `c3_amended_prefix_param` at the token `Ta8x`. -/
theorem c3_amended_prefix_param_witness :
    ((['T', 'a'] : List Char) ≠ [] ∧ (∀ c ∈ (['T', 'a'] : List Char), c.isAlpha = true) ∧
     (['8'] : List Char) ≠ [] ∧ (∀ c ∈ (['8'] : List Char), c.isDigit = true) ∧
     (∀ c, (['x'] : List Char).head? = some c → c.isDigit = false))
    ∧ (tokenParam (['T', 'a'] ++ (['8'] ++ ['x'])) = some (['T', 'a'], ['8'])
       ∧ (∀ (c : Char) (cs : List Char), c.isAlpha = false → tokenParam (c :: cs) = none)
       ∧ (∀ β σ : List Char, (∀ c ∈ β, c.isAlpha = true) →
           (∀ c, σ.head? = some c → c.isAlpha = false ∧ c.isDigit = false) →
           tokenParam (β ++ σ) = none)) :=
  ⟨⟨by decide, by decide, by decide, by decide, by decide⟩,
   c3_amended_prefix_param ['T', 'a'] ['8'] ['x'] (by decide) (by decide) (by decide)
     (by decide) (by decide)⟩

theorem splitOnChar_flat (ps : List (List Char × List Char))
    (h : ∀ kv ∈ ps, ∀ c ∈ (kv.1 ++ kv.2 : List Char), c ≠ '_') :
    ∀ t : List Char, (∀ c ∈ t, c ≠ '_') →
      splitOnChar '_' (t ++ ps.flatMap fun kv => '_' :: (kv.1 ++ kv.2)) =
        t :: ps.map fun kv => kv.1 ++ kv.2 := by
  induction ps with
  | nil =>
    intro t ht
    simpa using splitOnChar_no_sep t ht
  | cons kv rest ih =>
    intro t ht
    rw [List.flatMap_cons,
      show t ++ (('_' :: (kv.1 ++ kv.2)) ++ rest.flatMap fun kv => '_' :: (kv.1 ++ kv.2)) =
        t ++ '_' :: ((kv.1 ++ kv.2) ++ rest.flatMap fun kv => '_' :: (kv.1 ++ kv.2)) by simp,
      splitOnChar_append_sep _ _ ht,
      ih (fun kv hkv => h kv (List.mem_cons_of_mem _ hkv)) (kv.1 ++ kv.2)
        (h kv (List.mem_cons_self _ _)),
      List.map_cons]

theorem foldl_tokens (ps : List (List Char × List Char))
    (h : ∀ kv ∈ ps, tokenParam (kv.1 ++ kv.2) = some (kv.1, kv.2)) :
    ∀ acc : List (String × String),
      (ps.map fun kv => kv.1 ++ kv.2).foldl
        (fun acc part =>
          match tokenParam part with
          | some kv => dictInsert acc (String.mk kv.1) (String.mk kv.2)
          | none => acc) acc
      = ps.foldl (fun acc kv => dictInsert acc (String.mk kv.1) (String.mk kv.2)) acc := by
  induction ps with
  | nil => intro acc; rfl
  | cons kv rest ih =>
    intro acc
    rw [List.map_cons, List.foldl_cons, List.foldl_cons, h kv (List.mem_cons_self _ _)]
    exact ih (fun x hx => h x (List.mem_cons_of_mem _ hx)) _

/-- C8: for a filename `M_Px1Dy1_Px2Dy2....csv` — a method token of letters
followed by letters+digits parameter tokens — the parser recovers the method
and inserts each `(Pxi, Dyi)` pair in appearance order with Python-dict
semantics (`dictInsert`): an existing key keeps its original position and a
later occurrence's value overwrites the earlier one. -/
theorem c8_parse_shaped_filename (m : List Char) (ps : List (List Char × List Char))
    (hma : ∀ c ∈ m, c.isAlpha = true)
    (hps : ∀ kv ∈ ps, kv.1 ≠ [] ∧ (∀ c ∈ kv.1, c.isAlpha = true) ∧
                      kv.2 ≠ [] ∧ (∀ c ∈ kv.2, c.isDigit = true)) :
    parse_method_from_filename
        (String.mk (m ++ (ps.flatMap fun kv => '_' :: (kv.1 ++ kv.2)) ++ ['.', 'c', 's', 'v'])) =
      (String.mk m,
       ps.foldl (fun acc kv => dictInsert acc (String.mk kv.1) (String.mk kv.2)) []) := by
  have hflat : ∀ c ∈ (ps.flatMap fun kv => '_' :: (kv.1 ++ kv.2)), c ≠ '.' := by
    intro c hc
    rw [List.mem_flatMap] at hc
    obtain ⟨kv, hkv, hc⟩ := hc
    rcases List.mem_cons.1 hc with rfl | hc
    · decide
    · rcases List.mem_append.1 hc with hc | hc
      · exact alpha_ne_dot ((hps kv hkv).2.1 c hc)
      · exact digit_ne_dot ((hps kv hkv).2.2.2 c hc)
  have hnodot : ∀ c ∈ m ++ (ps.flatMap fun kv => '_' :: (kv.1 ++ kv.2)), c ≠ '.' := by
    intro c hc
    rcases List.mem_append.1 hc with hc | hc
    · exact alpha_ne_dot (hma c hc)
    · exact hflat c hc
  have hbase :
      removeCsv ((m ++ (ps.flatMap fun kv => '_' :: (kv.1 ++ kv.2))) ++ ['.', 'c', 's', 'v'])
        = m ++ (ps.flatMap fun kv => '_' :: (kv.1 ++ kv.2)) :=
    removeCsv_append_csv _ hnodot
  have hsplit :
      splitOnChar '_' (m ++ ps.flatMap fun kv => '_' :: (kv.1 ++ kv.2)) =
        m :: ps.map fun kv => kv.1 ++ kv.2 := by
    refine splitOnChar_flat ps ?_ m ?_
    · intro kv hkv c hc
      rcases List.mem_append.1 hc with hc | hc
      · exact alpha_ne_us ((hps kv hkv).2.1 c hc)
      · exact digit_ne_us ((hps kv hkv).2.2.2 c hc)
    · intro c hc
      exact alpha_ne_us (hma c hc)
  have htok : ∀ kv ∈ ps, tokenParam (kv.1 ++ kv.2) = some (kv.1, kv.2) := by
    intro kv hkv
    obtain ⟨h1, h2, h3, h4⟩ := hps kv hkv
    have := tokenParam_split kv.1 kv.2 [] h1 h2 h3 h4 (by intro c hc; simp at hc)
    simpa using this
  show parse_method_from_filename
      (String.mk ((m ++ (ps.flatMap fun kv => '_' :: (kv.1 ++ kv.2))) ++ ['.', 'c', 's', 'v']))
    = _
  simp only [parse_method_from_filename]
  rw [show (String.mk ((m ++ (ps.flatMap fun kv => '_' :: (kv.1 ++ kv.2))) ++
      ['.', 'c', 's', 'v'])).toList =
      (m ++ (ps.flatMap fun kv => '_' :: (kv.1 ++ kv.2))) ++ ['.', 'c', 's', 'v'] from rfl]
  rw [hbase, hsplit]
  rw [show (m :: ps.map fun kv => kv.1 ++ kv.2).headD [] = m from rfl]
  rw [show ((m :: ps.map fun kv => kv.1 ++ kv.2).drop 1) = ps.map fun kv => kv.1 ++ kv.2
    from rfl]
  rw [foldl_tokens ps htok]

/-- Witness for `c8_parse_shaped_filename`: `PFL_Ta8_cf20_Ta9.csv` parses to
method `PFL` with `Ta` kept at its first position but overwritten to `9`. -/
theorem c8_parse_shaped_filename_witness :
    ((∀ c ∈ (['P', 'F', 'L'] : List Char), c.isAlpha = true) ∧
     (∀ kv ∈ ([(['T', 'a'], ['8']), (['c', 'f'], ['2', '0']), (['T', 'a'], ['9'])] :
         List (List Char × List Char)),
       kv.1 ≠ [] ∧ (∀ c ∈ kv.1, c.isAlpha = true) ∧
       kv.2 ≠ [] ∧ (∀ c ∈ kv.2, c.isDigit = true)))
    ∧ parse_method_from_filename "PFL_Ta8_cf20_Ta9.csv" = ("PFL", [("Ta", "9"), ("cf", "20")]) :=
  ⟨⟨by decide, by decide⟩, by
    have := c8_parse_shaped_filename ['P', 'F', 'L']
      [(['T', 'a'], ['8']), (['c', 'f'], ['2', '0']), (['T', 'a'], ['9'])]
      (by decide) (by decide)
    exact (show parse_method_from_filename "PFL_Ta8_cf20_Ta9.csv" =
        parse_method_from_filename
          (String.mk ((['P', 'F', 'L'] : List Char) ++
            (([(['T', 'a'], ['8']), (['c', 'f'], ['2', '0']), (['T', 'a'], ['9'])] :
                List (List Char × List Char)).flatMap fun kv => '_' :: (kv.1 ++ kv.2)) ++
            ['.', 'c', 's', 'v'])) by rfl).trans (this.trans (by decide))⟩

/-!
### A normal form for the discovery loop
-/

/-- The entry (if any) that one discovered file contributes. -/
def fileEntry (f : DiscoveredFile) : List RunEntry :=
  if f.parts.length < 4 then []
  else if substrMatch "video".toList (pathString f.parts).toList then []
  else
    match analyze_csv_file f.content with
    | none => []
    | some stats =>
      [{ Environment := pyCapitalize (f.parts.getD 0 "")
         Method_Dir := f.parts.getD 2 ""
         Method := (parse_method_from_filename (f.parts.getD 3 "")).1
         Horizon := stats.mean_steps
         Success_Rate := stats.success_rate
         N_Critical_Collisions := stats.total_critical_collisions
         Mean_Critical_Collisions := stats.mean_critical_collisions
         N_Runs := stats.n_runs
         params := (parse_method_from_filename (f.parts.getD 3 "")).2 }]

/-- The console line (if any) that one discovered file contributes. -/
def fileLog (f : DiscoveredFile) : List String :=
  if f.parts.length < 4 then []
  else if substrMatch "video".toList (pathString f.parts).toList then []
  else
    match analyze_csv_file f.content with
    | none => ["Error processing " ++ pathString f.parts]
    | some _ =>
      ["Processed: " ++ f.parts.getD 0 "" ++ "/" ++ f.parts.getD 2 "" ++ "/" ++
        f.parts.getD 3 ""]

theorem processFile_eq (st : LoopState) (f : DiscoveredFile) :
    processFile st f = ⟨st.entries ++ fileEntry f, st.logs ++ fileLog f⟩ := by
  simp only [processFile, fileEntry, fileLog]
  split
  · simp
  · split
    · simp
    · cases h : analyze_csv_file f.content <;> simp

theorem foldl_processFile_eq (l : List DiscoveredFile) :
    ∀ st : LoopState,
      List.foldl processFile st l =
        ⟨st.entries ++ l.flatMap fileEntry, st.logs ++ l.flatMap fileLog⟩ := by
  induction l with
  | nil => intro st; simp
  | cons f rest ih =>
    intro st
    rw [List.foldl_cons, processFile_eq, ih, List.flatMap_cons, List.flatMap_cons]
    simp

theorem processAll_eq (files : List DiscoveredFile) :
    processAll files = ⟨files.flatMap fileEntry, files.flatMap fileLog⟩ := by
  rw [processAll, foldl_processFile_eq]
  rfl

theorem summarize_result_logs_indep (ents : List RunEntry) (lg1 lg2 : List String) :
    (summarize ⟨ents, lg1⟩).result = (summarize ⟨ents, lg2⟩).result := by
  simp only [summarize]
  split
  · rfl
  · cases h : (sortSummary (ents.map fun e => (e, method_full (allParamKeys ents) e))).mapM
        (finalize (allParamKeys ents)) <;> simp

/-- C10: a discovered file whose relative path has more than 4 segments is
not skipped: it contributes a summary row, and the method name and
parameters of that row are parsed from the 4th path segment
(`path_parts[3]`, a directory name at that depth), not from the file's
actual basename (the last segment). -/
theorem c10_deep_path_parses_fourth_segment (st : LoopState) (f : DiscoveredFile)
    (s : FileStats) (h4 : 4 < f.parts.length)
    (hv : substrMatch "video".toList (pathString f.parts).toList = false)
    (hs : analyze_csv_file f.content = some s) :
    (processFile st f).entries = st.entries ++
      [{ Environment := pyCapitalize (f.parts.getD 0 "")
         Method_Dir := f.parts.getD 2 ""
         Method := (parse_method_from_filename (f.parts.getD 3 "")).1
         Horizon := s.mean_steps
         Success_Rate := s.success_rate
         N_Critical_Collisions := s.total_critical_collisions
         Mean_Critical_Collisions := s.mean_critical_collisions
         N_Runs := s.n_runs
         params := (parse_method_from_filename (f.parts.getD 3 "")).2 }] := by
  rw [processFile_eq]
  simp only [fileEntry, hv, hs, if_neg (by omega : ¬ f.parts.length < 4)]
  simp

/-- Witness for `c10_deep_path_parses_fourth_segment`: for the 5-segment path
`lift/ph/m/sub/X.csv` the parsed method is the directory name `sub`, not `X`
from the basename `X.csv`. -/
theorem c10_deep_path_parses_fourth_segment_witness :
    (4 < (["lift", "ph", "m", "sub", "X.csv"] : List String).length ∧
     substrMatch "video".toList
       (pathString ["lift", "ph", "m", "sub", "X.csv"]).toList = false ∧
     analyze_csv_file (CsvRead.parsed ⟨cols3, [⟨1, 100, 0⟩]⟩) =
       some ⟨1, PVal.val 1, PVal.val 100, 0, PVal.val 0⟩)
    ∧ (processFile ⟨[], []⟩
        ⟨["lift", "ph", "m", "sub", "X.csv"], CsvRead.parsed ⟨cols3, [⟨1, 100, 0⟩]⟩⟩).entries =
      ([] : List RunEntry) ++
      [{ Environment := pyCapitalize ((["lift", "ph", "m", "sub", "X.csv"] :
             List String).getD 0 "")
         Method_Dir := (["lift", "ph", "m", "sub", "X.csv"] : List String).getD 2 ""
         Method := (parse_method_from_filename
           ((["lift", "ph", "m", "sub", "X.csv"] : List String).getD 3 "")).1
         Horizon := PVal.val 100
         Success_Rate := PVal.val 1
         N_Critical_Collisions := 0
         Mean_Critical_Collisions := PVal.val 0
         N_Runs := 1
         params := (parse_method_from_filename
           ((["lift", "ph", "m", "sub", "X.csv"] : List String).getD 3 "")).2 }] :=
  ⟨⟨by decide, by decide, by with_unfolding_all decide⟩,
   c10_deep_path_parses_fourth_segment ⟨[], []⟩
     ⟨["lift", "ph", "m", "sub", "X.csv"], CsvRead.parsed ⟨cols3, [⟨1, 100, 0⟩]⟩⟩
     ⟨1, PVal.val 1, PVal.val 100, 0, PVal.val 0⟩
     (by decide) (by decide) (by with_unfolding_all decide)⟩

/-- C6: a file whose content is unreadable or malformed (here: any content on
which `analyze_csv_file` raises, e.g. a missing `success` column) contributes
no entry, its path is logged with an error line, and the rest of the run is
unchanged: the collected entries — and hence the final result, including the
row of every other valid file — are exactly those of the run without the bad
file. -/
theorem c6_bad_file_logged_and_skipped (pre post : List DiscoveredFile)
    (f : DiscoveredFile)
    (h4 : ¬ f.parts.length < 4)
    (hv : substrMatch "video".toList (pathString f.parts).toList = false)
    (hb : analyze_csv_file f.content = none) :
    (processAll (pre ++ f :: post)).entries = (processAll (pre ++ post)).entries
    ∧ ("Error processing " ++ pathString f.parts) ∈ (processAll (pre ++ f :: post)).logs
    ∧ (main_run (some (pre ++ f :: post))).result = (main_run (some (pre ++ post))).result := by
  have hv' : substrMatch ['v', 'i', 'd', 'e', 'o'] (pathString f.parts).data = false := hv
  have hfe : fileEntry f = [] := by
    simp [fileEntry, h4, hv, hb]
  have hfl : fileLog f = ["Error processing " ++ pathString f.parts] := by
    simp [fileLog, h4, hv, hv', hb]
  have he : (processAll (pre ++ f :: post)).entries = (processAll (pre ++ post)).entries := by
    rw [processAll_eq, processAll_eq]
    simp [hfe]
  refine ⟨he, ?_, ?_⟩
  · rw [processAll_eq]
    simp [hfl]
  · show (summarize (processAll (pre ++ f :: post))).result =
      (summarize (processAll (pre ++ post))).result
    rw [processAll_eq, processAll_eq] at he ⊢
    simp only at he
    rw [he]
    exact summarize_result_logs_indep _ _ _

/-- Witness for `c6_bad_file_logged_and_skipped`: a file missing the
`success` column between two valid files. -/
theorem c6_bad_file_logged_and_skipped_witness :
    (¬ (["lift", "ph", "m2", "Bad.csv"] : List String).length < 4 ∧
     substrMatch "video".toList (pathString ["lift", "ph", "m2", "Bad.csv"]).toList = false ∧
     analyze_csv_file (CsvRead.parsed ⟨["n_steps", "critical_collisions"], [⟨0, 5, 0⟩]⟩) = none)
    ∧ ((processAll
          ([⟨["lift", "ph", "m1", "G1.csv"], CsvRead.parsed ⟨cols3, [⟨1, 100, 0⟩]⟩⟩] ++
            ⟨["lift", "ph", "m2", "Bad.csv"],
              CsvRead.parsed ⟨["n_steps", "critical_collisions"], [⟨0, 5, 0⟩]⟩⟩ ::
            [⟨["lift", "ph", "m3", "G2.csv"], CsvRead.parsed ⟨cols3, [⟨0, 50, 1⟩]⟩⟩])).entries =
        (processAll
          ([⟨["lift", "ph", "m1", "G1.csv"], CsvRead.parsed ⟨cols3, [⟨1, 100, 0⟩]⟩⟩] ++
            [⟨["lift", "ph", "m3", "G2.csv"], CsvRead.parsed ⟨cols3, [⟨0, 50, 1⟩]⟩⟩])).entries
      ∧ ("Error processing " ++ pathString ["lift", "ph", "m2", "Bad.csv"]) ∈
          (processAll
            ([⟨["lift", "ph", "m1", "G1.csv"], CsvRead.parsed ⟨cols3, [⟨1, 100, 0⟩]⟩⟩] ++
              ⟨["lift", "ph", "m2", "Bad.csv"],
                CsvRead.parsed ⟨["n_steps", "critical_collisions"], [⟨0, 5, 0⟩]⟩⟩ ::
              [⟨["lift", "ph", "m3", "G2.csv"], CsvRead.parsed ⟨cols3, [⟨0, 50, 1⟩]⟩⟩])).logs
      ∧ (main_run (some
            ([⟨["lift", "ph", "m1", "G1.csv"], CsvRead.parsed ⟨cols3, [⟨1, 100, 0⟩]⟩⟩] ++
              ⟨["lift", "ph", "m2", "Bad.csv"],
                CsvRead.parsed ⟨["n_steps", "critical_collisions"], [⟨0, 5, 0⟩]⟩⟩ ::
              [⟨["lift", "ph", "m3", "G2.csv"], CsvRead.parsed ⟨cols3, [⟨0, 50, 1⟩]⟩⟩]))).result =
          (main_run (some
            ([⟨["lift", "ph", "m1", "G1.csv"], CsvRead.parsed ⟨cols3, [⟨1, 100, 0⟩]⟩⟩] ++
              [⟨["lift", "ph", "m3", "G2.csv"], CsvRead.parsed ⟨cols3, [⟨0, 50, 1⟩]⟩⟩]))).result) :=
  ⟨⟨by decide, by decide, by decide⟩,
   c6_bad_file_logged_and_skipped
     [⟨["lift", "ph", "m1", "G1.csv"], CsvRead.parsed ⟨cols3, [⟨1, 100, 0⟩]⟩⟩]
     [⟨["lift", "ph", "m3", "G2.csv"], CsvRead.parsed ⟨cols3, [⟨0, 50, 1⟩]⟩⟩]
     ⟨["lift", "ph", "m2", "Bad.csv"],
       CsvRead.parsed ⟨["n_steps", "critical_collisions"], [⟨0, 5, 0⟩]⟩⟩
     (by decide) (by decide) (by decide)⟩

set_option maxRecDepth 100000

/-- C9: for a root containing exactly
`lift/ph/failsafe_single/PFL_Ta8_cf20.csv` with 10 rows, 7 successes,
`n_steps` mean 150.4 and `critical_collisions` summing to 3, the written
summary is exactly the claimed row: `Environment=Lift, Method=PFL,
Method_Full=PFL_Ta8_cf20, Horizon=150, Success_Rate=0.7,
N_Critical_Collisions=3, Mean_Critical_Collisions=0.3,
Method_Dir=failsafe_single, N_Runs=10, Param_Ta=8, Param_cf=20`. -/
theorem c9_single_file_scenario (rows : List CsvRow)
    (hlen : rows.length = 10)
    (hsucc : (rows.map (·.success)).sum = 7)
    (hsteps : pmean (rows.map (·.n_steps)) = PVal.val (752/5))
    (hcc : (rows.map (·.critical_collisions)).sum = 3) :
    (main_run (some [⟨["lift", "ph", "failsafe_single", "PFL_Ta8_cf20.csv"],
        CsvRead.parsed ⟨cols3, rows⟩⟩])).result =
      RunResult.written
        [{ Environment := "Lift", Method := "PFL", Method_Full := "PFL_Ta8_cf20",
           Horizon := 150, Success_Rate := PVal.val (7/10),
           N_Critical_Collisions := 3, Mean_Critical_Collisions := PVal.val (3/10),
           Method_Dir := "failsafe_single", N_Runs := 10,
           paramCells := [("Ta", some "8"), ("cf", some "20")] }] := by
  have h1 : pmean (rows.map (·.success)) = PVal.val (7/10) := by
    simp [pmean, List.length_map, hlen, hsucc]
  have h2 : pmean (rows.map (·.critical_collisions)) = PVal.val (3/10) := by
    simp [pmean, List.length_map, hlen, hcc]
  have hstats : analyze_csv_file (CsvRead.parsed ⟨cols3, rows⟩) =
      some ⟨10, PVal.val (7/10), PVal.val (752/5), 3, PVal.val (3/10)⟩ := by
    simp only [analyze_csv_file]
    rw [if_pos (by refine ⟨?_, ?_, ?_⟩ <;> simp [cols3])]
    simp [hlen, hsucc, hsteps, hcc, h1, h2]
  have hentry : fileEntry ⟨["lift", "ph", "failsafe_single", "PFL_Ta8_cf20.csv"],
      CsvRead.parsed ⟨cols3, rows⟩⟩ =
      [{ Environment := "Lift", Method_Dir := "failsafe_single", Method := "PFL",
         Horizon := PVal.val (752/5), Success_Rate := PVal.val (7/10),
         N_Critical_Collisions := 3, Mean_Critical_Collisions := PVal.val (3/10),
         N_Runs := 10, params := [("Ta", "8"), ("cf", "20")] }] := by
    simp only [fileEntry, hstats]
    with_unfolding_all decide
  simp only [main_run]
  rw [processAll_eq]
  simp only [List.flatMap_cons, List.flatMap_nil, hentry]
  rw [summarize_result_logs_indep _ _ []]
  with_unfolding_all decide

/-- Concrete rows for the C9 scenario: 10 runs, 7 successes, `n_steps`
summing to 1504 (mean 150.4), collisions summing to 3. -/
def c9rows : List CsvRow :=
  [⟨1, 150, 0⟩, ⟨1, 150, 0⟩, ⟨1, 150, 0⟩, ⟨1, 150, 0⟩, ⟨1, 150, 0⟩, ⟨1, 150, 0⟩,
   ⟨1, 150, 0⟩, ⟨0, 151, 3⟩, ⟨0, 151, 0⟩, ⟨0, 152, 0⟩]

/-- Witness for `c9_single_file_scenario` at `c9rows`. -/
theorem c9_single_file_scenario_witness :
    (c9rows.length = 10 ∧
     (c9rows.map (·.success)).sum = 7 ∧
     pmean (c9rows.map (·.n_steps)) = PVal.val (752/5) ∧
     (c9rows.map (·.critical_collisions)).sum = 3)
    ∧ (main_run (some [⟨["lift", "ph", "failsafe_single", "PFL_Ta8_cf20.csv"],
        CsvRead.parsed ⟨cols3, c9rows⟩⟩])).result =
      RunResult.written
        [{ Environment := "Lift", Method := "PFL", Method_Full := "PFL_Ta8_cf20",
           Horizon := 150, Success_Rate := PVal.val (7/10),
           N_Critical_Collisions := 3, Mean_Critical_Collisions := PVal.val (3/10),
           Method_Dir := "failsafe_single", N_Runs := 10,
           paramCells := [("Ta", some "8"), ("cf", some "20")] }] :=
  ⟨⟨by decide, by with_unfolding_all decide, by with_unfolding_all decide,
    by with_unfolding_all decide⟩,
   c9_single_file_scenario c9rows (by decide) (by with_unfolding_all decide)
     (by with_unfolding_all decide) (by with_unfolding_all decide)⟩

/-!
### Order facts for the sort comparator
-/

theorem listLtB_irrefl : ∀ l : List Char, listLtB l l = false := by
  intro l
  induction l with
  | nil => rfl
  | cons c cs ih => simp [listLtB, ih]

theorem listLtB_trans : ∀ a b c : List Char,
    listLtB a b = true → listLtB b c = true → listLtB a c = true := by
  intro a
  induction a with
  | nil =>
    intro b c hab hbc
    cases b with
    | nil => exact absurd hab (by simp [listLtB])
    | cons y ys =>
      cases c with
      | nil => exact absurd hbc (by simp [listLtB])
      | cons z zs => simp [listLtB]
  | cons x xs ih =>
    intro b c hab hbc
    cases b with
    | nil => exact absurd hab (by simp [listLtB])
    | cons y ys =>
      cases c with
      | nil => exact absurd hbc (by simp [listLtB])
      | cons z zs =>
        simp only [listLtB] at hab hbc ⊢
        by_cases hxy : x.toNat < y.toNat
        · by_cases hyz : y.toNat < z.toNat
          · rw [if_pos (Nat.lt_trans hxy hyz)]
          · rw [if_neg hyz] at hbc
            by_cases hzy : z.toNat < y.toNat
            · simp [hzy] at hbc
            · have heq : y.toNat = z.toNat :=
                Nat.le_antisymm (Nat.le_of_not_lt hzy) (Nat.le_of_not_lt hyz)
              rw [if_pos (by rw [← heq]; exact hxy)]
        · rw [if_neg hxy] at hab
          by_cases hyx : y.toNat < x.toNat
          · simp [hyx] at hab
          · have hxyeq : x.toNat = y.toNat :=
              Nat.le_antisymm (Nat.le_of_not_lt hyx) (Nat.le_of_not_lt hxy)
            rw [if_neg hyx] at hab
            by_cases hyz : y.toNat < z.toNat
            · rw [if_pos (by rw [hxyeq]; exact hyz)]
            · rw [if_neg hyz] at hbc
              by_cases hzy : z.toNat < y.toNat
              · simp [hzy] at hbc
              · rw [if_neg hzy] at hbc
                rw [if_neg (by rw [hxyeq]; exact hyz),
                  if_neg (by rw [hxyeq]; exact hzy)]
                exact ih ys zs hab hbc

theorem listLtB_trichotomy : ∀ a b : List Char,
    listLtB a b = true ∨ a = b ∨ listLtB b a = true := by
  intro a
  induction a with
  | nil =>
    intro b
    cases b with
    | nil => exact Or.inr (Or.inl rfl)
    | cons y ys => exact Or.inl (by simp [listLtB])
  | cons x xs ih =>
    intro b
    cases b with
    | nil => exact Or.inr (Or.inr (by simp [listLtB]))
    | cons y ys =>
      by_cases hxy : x.toNat < y.toNat
      · exact Or.inl (by simp [listLtB, hxy])
      · by_cases hyx : y.toNat < x.toNat
        · exact Or.inr (Or.inr (by simp [listLtB, hyx]))
        · have hxyeq : x = y := by
            have h1 : x.toNat = y.toNat :=
              Nat.le_antisymm (Nat.le_of_not_lt hyx) (Nat.le_of_not_lt hxy)
            have h2 := congrArg Char.ofNat h1
            simpa [Char.ofNat_toNat] using h2
          subst hxyeq
          rcases ih ys with h | h | h
          · exact Or.inl (by simp [listLtB, h])
          · exact Or.inr (Or.inl (by rw [h]))
          · exact Or.inr (Or.inr (by simp [listLtB, h]))

theorem strLt_irrefl (s : String) : strLt s s = false := listLtB_irrefl _

theorem strLt_trans {a b c : String} (h1 : strLt a b = true) (h2 : strLt b c = true) :
    strLt a c = true := listLtB_trans _ _ _ h1 h2

theorem strLt_trichotomy (a b : String) :
    strLt a b = true ∨ a = b ∨ strLt b a = true := by
  rcases listLtB_trichotomy a.toList b.toList with h | h | h
  · exact Or.inl h
  · exact Or.inr (Or.inl (String.toList_inj.1 h))
  · exact Or.inr (Or.inr h)

theorem tripleLt_irrefl (a : String × String × String) : ¬ tripleLt a a := by
  simp [tripleLt, strLt_irrefl]

theorem tripleLt_trans {a b c : String × String × String}
    (h1 : tripleLt a b) (h2 : tripleLt b c) : tripleLt a c := by
  rcases h1 with h1 | ⟨e1, h1⟩
  · rcases h2 with h2 | ⟨e2, h2⟩
    · exact Or.inl (strLt_trans h1 h2)
    · exact Or.inl (e2 ▸ h1)
  · rcases h2 with h2 | ⟨e2, h2⟩
    · exact Or.inl (e1 ▸ h2)
    · refine Or.inr ⟨e1.trans e2, ?_⟩
      rcases h1 with h1 | ⟨f1, h1⟩
      · rcases h2 with h2 | ⟨f2, h2⟩
        · exact Or.inl (strLt_trans h1 h2)
        · exact Or.inl (f2 ▸ h1)
      · rcases h2 with h2 | ⟨f2, h2⟩
        · exact Or.inl (f1 ▸ h2)
        · exact Or.inr ⟨f1.trans f2, strLt_trans h1 h2⟩

theorem tripleLt_trichotomy (a b : String × String × String) :
    tripleLt a b ∨ a = b ∨ tripleLt b a := by
  rcases strLt_trichotomy a.1 b.1 with h | h | h
  · exact Or.inl (Or.inl h)
  · rcases strLt_trichotomy a.2.1 b.2.1 with h2 | h2 | h2
    · exact Or.inl (Or.inr ⟨h, Or.inl h2⟩)
    · rcases strLt_trichotomy a.2.2 b.2.2 with h3 | h3 | h3
      · exact Or.inl (Or.inr ⟨h, Or.inr ⟨h2, h3⟩⟩)
      · refine Or.inr (Or.inl ?_)
        obtain ⟨a1, a2, a3⟩ := a
        obtain ⟨b1, b2, b3⟩ := b
        simp only at h h2 h3
        rw [h, h2, h3]
      · exact Or.inr (Or.inr (Or.inr ⟨h.symm, Or.inr ⟨h2.symm, h3⟩⟩))
    · exact Or.inr (Or.inr (Or.inr ⟨h.symm, Or.inl h2⟩))
  · exact Or.inr (Or.inr (Or.inl h))

theorem entryLe_trans (a b c : ℕ × (RunEntry × String))
    (h1 : entryLe a b = true) (h2 : entryLe b c = true) : entryLe a c = true := by
  simp only [entryLe, Bool.or_eq_true, Bool.and_eq_true, decide_eq_true_eq] at h1 h2 ⊢
  rcases h1 with h1 | ⟨e1, i1⟩
  · rcases h2 with h2 | ⟨e2, i2⟩
    · exact Or.inl (tripleLt_trans h1 h2)
    · exact Or.inl (e2 ▸ h1)
  · rcases h2 with h2 | ⟨e2, i2⟩
    · exact Or.inl (e1 ▸ h2)
    · exact Or.inr ⟨e1.trans e2, Nat.le_trans i1 i2⟩

theorem entryLe_total (a b : ℕ × (RunEntry × String)) :
    entryLe a b = true ∨ entryLe b a = true := by
  simp only [entryLe, Bool.or_eq_true, Bool.and_eq_true, decide_eq_true_eq]
  rcases tripleLt_trichotomy (keyOf a.2) (keyOf b.2) with h | h | h
  · exact Or.inl (Or.inl h)
  · rcases Nat.le_total a.1 b.1 with hi | hi
    · exact Or.inl (Or.inr ⟨h, hi⟩)
    · exact Or.inr (Or.inr ⟨h.symm, hi⟩)
  · exact Or.inr (Or.inl h)

/-!
### Insertion-sort lemmas and the sort claim
-/

theorem perm_insertLe (le : α → α → Bool) (a : α) (l : List α) :
    List.Perm (insertLe le a l) (a :: l) := by
  induction l with
  | nil => exact List.Perm.refl _
  | cons b t ih =>
    simp only [insertLe]
    split
    · exact List.Perm.refl _
    · exact (List.Perm.cons b ih).trans (List.Perm.swap a b t)

theorem perm_isortLe (le : α → α → Bool) (l : List α) : List.Perm (isortLe le l) l := by
  induction l with
  | nil => exact List.Perm.refl _
  | cons a t ih => exact (perm_insertLe le a (isortLe le t)).trans (List.Perm.cons a ih)

theorem pairwise_insertLe (le : α → α → Bool)
    (htrans : ∀ a b c, le a b = true → le b c = true → le a c = true)
    (htot : ∀ a b, le a b = true ∨ le b a = true)
    (a : α) (l : List α) (h : l.Pairwise (le · · = true)) :
    (insertLe le a l).Pairwise (le · · = true) := by
  induction l with
  | nil => simp [insertLe]
  | cons b t ih =>
    simp only [insertLe]
    split
    · rename_i hab
      refine List.Pairwise.cons ?_ h
      intro x hx
      rcases List.mem_cons.1 hx with rfl | hx
      · exact hab
      · exact htrans a b x hab ((List.pairwise_cons.1 h).1 x hx)
    · rename_i hab
      have hba : le b a = true := (htot a b).resolve_left (by simpa using hab)
      refine List.Pairwise.cons ?_ (ih (List.pairwise_cons.1 h).2)
      intro x hx
      have hx' : x ∈ a :: t := (perm_insertLe le a t).mem_iff.1 hx
      rcases List.mem_cons.1 hx' with rfl | hx'
      · exact hba
      · exact (List.pairwise_cons.1 h).1 x hx'

theorem pairwise_isortLe (le : α → α → Bool)
    (htrans : ∀ a b c, le a b = true → le b c = true → le a c = true)
    (htot : ∀ a b, le a b = true ∨ le b a = true)
    (l : List α) : (isortLe le l).Pairwise (le · · = true) := by
  induction l with
  | nil => simp [isortLe]
  | cons a t ih => exact pairwise_insertLe le htrans htot a (isortLe le t) ih

/-- C5: the summary sort is total and stable.  The sorted tagged rows are a
permutation of the discovery-tagged rows; for any two rows in the sorted
output, if their `(Environment, Method, Method_Full)` keys differ, the
earlier row's key is strictly lexicographically smaller (case-sensitive
code-point comparison), and if the keys are equal, the earlier row has the
smaller discovery index — original relative order is preserved. -/
theorem c5_sort_total_and_stable (l : List (RunEntry × String)) :
    sortSummary l = (isortLe entryLe l.enum).map (·.2)
    ∧ List.Perm (isortLe entryLe l.enum) l.enum
    ∧ (isortLe entryLe l.enum).Pairwise (fun a b =>
        (keyOf a.2 ≠ keyOf b.2 → tripleLt (keyOf a.2) (keyOf b.2))
        ∧ (keyOf a.2 = keyOf b.2 → a.1 < b.1)) := by
  refine ⟨rfl, perm_isortLe entryLe l.enum, ?_⟩
  have hp : (isortLe entryLe l.enum).Pairwise (entryLe · · = true) :=
    pairwise_isortLe entryLe entryLe_trans entryLe_total l.enum
  have hnd : (isortLe entryLe l.enum).Pairwise (fun a b => a.1 ≠ b.1) := by
    have h1 : (l.enum.map Prod.fst).Nodup := by
      rw [List.enum_map_fst]
      exact List.nodup_range _
    have h2 : l.enum.Pairwise (fun a b => a.1 ≠ b.1) := List.pairwise_map.1 h1
    exact ((perm_isortLe entryLe l.enum).pairwise_iff fun h e => h e.symm).2 h2
  refine (hp.and hnd).imp ?_
  rintro a b ⟨hle, hne⟩
  simp only [entryLe, Bool.or_eq_true, Bool.and_eq_true, decide_eq_true_eq] at hle
  constructor
  · intro hk
    rcases hle with h | ⟨he, _⟩
    · exact h
    · exact absurd he hk
  · intro hk
    rcases hle with h | ⟨_, hi⟩
    · exact absurd (hk ▸ h) (tripleLt_irrefl _)
    · exact Nat.lt_of_le_of_ne hi hne

/-!
### The rounding boundary and the grouped views (claim C4)
-/

/-- The rounding of lines 143–147 as a total function on one summary row;
equal to `finalize` whenever `finalize` succeeds. -/
def roundRow (keys : List String) (e : RunEntry × String) : FinalRow :=
  { Environment := e.1.Environment
    Method := e.1.Method
    Method_Full := e.2
    Horizon := (pAstypeInt (proundDigits 0 e.1.Horizon)).getD 0
    Success_Rate := proundDigits 4 e.1.Success_Rate
    N_Critical_Collisions := rqHalfEven e.1.N_Critical_Collisions
    Mean_Critical_Collisions := proundDigits 2 e.1.Mean_Critical_Collisions
    Method_Dir := e.1.Method_Dir
    N_Runs := e.1.N_Runs
    paramCells := keys.map fun k => (k, lookupParam e.1.params k) }

theorem finalize_eq_some {keys : List String} {e : RunEntry × String} {r : FinalRow}
    (h : finalize keys e = some r) : r = roundRow keys e := by
  simp only [finalize] at h
  cases hp : pAstypeInt (proundDigits 0 e.1.Horizon) with
  | none => rw [hp] at h; exact absurd h (by simp)
  | some z =>
    rw [hp] at h
    simp only [Option.some.injEq] at h
    rw [← h]
    simp [roundRow, hp]

theorem mapM_finalize_eq {keys : List String} :
    ∀ {l : List (RunEntry × String)} {rows : List FinalRow},
      l.mapM (finalize keys) = some rows → rows = l.map (roundRow keys) := by
  intro l
  induction l with
  | nil =>
    intro rows h
    rw [List.mapM_nil] at h
    simpa using h.symm
  | cons e t ih =>
    intro rows h
    rw [List.mapM_cons] at h
    cases hfe : finalize keys e with
    | none => rw [hfe] at h; exact absurd h (by simp)
    | some r =>
      rw [hfe] at h
      cases hmt : t.mapM (finalize keys) with
      | none => rw [hmt] at h; exact absurd h (by simp)
      | some rs =>
        rw [hmt] at h
        have h' : r :: rs = rows := by simpa using h
        rw [← h', List.map_cons, ← ih hmt, ← finalize_eq_some hfe]

theorem written_inv {st : LoopState} {rows : List FinalRow}
    (h : (summarize st).result = RunResult.written rows) :
    (sortSummary (st.entries.map fun e => (e, method_full (allParamKeys st.entries) e))).mapM
      (finalize (allParamKeys st.entries)) = some rows := by
  by_cases he : st.entries.isEmpty
  · simp [summarize, he] at h
  · simp only [summarize, he, Bool.false_eq_true, if_false] at h
    cases hm : (sortSummary (st.entries.map fun e =>
        (e, method_full (allParamKeys st.entries) e))).mapM
        (finalize (allParamKeys st.entries)) with
    | none => rw [hm] at h; simp at h
    | some rows' =>
      rw [hm] at h
      simp only [RunResult.written.injEq] at h
      rw [h]

theorem pmean_perm {l l' : List ℚ} (h : List.Perm l l') : pmean l = pmean l' := by
  simp [pmean, h.length_eq, h.sum_eq]

theorem sortSummary_perm (l : List (RunEntry × String)) :
    List.Perm (sortSummary l) l := by
  have h1 : List.Perm (isortLe entryLe l.enum) l.enum := perm_isortLe entryLe l.enum
  have h2 := h1.map (·.2)
  rw [show l.enum.map (·.2) = l from List.enum_map_snd l] at h2
  exact h2

theorem rows_perm_of_written {files : List DiscoveredFile} {rows : List FinalRow}
    (h : (main_run (some files)).result = RunResult.written rows) :
    List.Perm rows
      (((processAll files).entries.map fun e =>
          (e, method_full (allParamKeys (processAll files).entries) e)).map
        (roundRow (allParamKeys (processAll files).entries))) := by
  have hM := written_inv (by simpa [main_run] using h)
  have hrows := mapM_finalize_eq hM
  rw [hrows]
  exact (sortSummary_perm _).map _

theorem grouped_rows_perm {keys : List String} {entries : List RunEntry}
    {rows : List FinalRow}
    (hperm : List.Perm rows
      ((entries.map fun e => (e, method_full keys e)).map (roundRow keys)))
    (g : FinalRow → String) (g' : RunEntry → String)
    (hg : ∀ e : RunEntry × String, g (roundRow keys e) = g' e.1) (k : String) :
    List.Perm (rows.filter fun r => g r = k)
      ((entries.filter fun e => g' e = k).map fun e =>
        roundRow keys (e, method_full keys e)) := by
  have h1 := hperm.filter (fun r => decide (g r = k))
  have h2 : ((entries.map fun e => (e, method_full keys e)).map
        (roundRow keys)).filter (fun r => decide (g r = k)) =
      (entries.filter fun e => g' e = k).map fun e =>
        roundRow keys (e, method_full keys e) := by
    rw [List.filter_map, List.filter_map, List.map_map]
    congr 1
    · apply List.filter_congr
      intro e he
      simp [Function.comp, hg]
  rw [h2] at h1
  exact h1

theorem grouped_metric_perm {β : Type} {keys : List String} {entries : List RunEntry}
    {rows : List FinalRow}
    (hperm : List.Perm rows
      ((entries.map fun e => (e, method_full keys e)).map (roundRow keys)))
    (g : FinalRow → String) (g' : RunEntry → String)
    (hg : ∀ e : RunEntry × String, g (roundRow keys e) = g' e.1)
    (k : String) (q : FinalRow → β) :
    List.Perm ((rows.filter fun r => g r = k).map q)
      ((entries.filter fun e => g' e = k).map fun e =>
        q (roundRow keys (e, method_full keys e))) := by
  have hp := (grouped_rows_perm hperm g g' hg k).map q
  rw [List.map_map] at hp
  simpa [Function.comp] using hp

/-- Follows the spec's words for comparison (C4): the grouped-by-environment
mean of the *unrounded* per-file horizon metric, which the claim asserts the
code computes. -/
def specUnroundedEnvHorizonMean (files : List DiscoveredFile) (env : String) : PVal :=
  proundDigits 4 (pmean (pvalsToRats
    (((processAll files).entries.filter fun e => e.Environment = env).map (·.Horizon))))

/-- Two one-row files in the same environment with `n_steps` means 150.4 and
151.4: the rounded per-file horizons are 150 and 151. -/
def c4files : List DiscoveredFile :=
  [ ⟨["lift", "ph", "m", "B.csv"], CsvRead.parsed ⟨cols3, [⟨1, 757/5, 0⟩]⟩⟩,
    ⟨["lift", "ph", "m", "A.csv"], CsvRead.parsed ⟨cols3, [⟨0, 752/5, 1⟩]⟩⟩ ]

/-- C4 counterexample: the claim says the grouped-by-environment view is
computed from the *unrounded* per-file metrics, which at `c4files` would give
a horizon mean of round4((150.4+151.4)/2) = 150.9; the code rounds the table
in place first, so the grouped view actually computed is
round4((150+151)/2) = 150.5 ≠ 150.9. -/
theorem c4_grouped_uses_rounded_cex :
    (match (main_run (some c4files)).result with
     | RunResult.written rows => groupHorizonMean rows (fun r => r.Environment) "Lift"
     | _ => PVal.nan) = PVal.val (301/2)
    ∧ specUnroundedEnvHorizonMean c4files "Lift" = PVal.val (1509/10)
    ∧ PVal.val (301/2) ≠ PVal.val (1509/10) := by
  with_unfolding_all decide

/-- C4 (amended): per-row export rounding is applied exactly once — the
written rows are, up to the sort's permutation, the per-file entries with
each metric rounded once — but the grouped-by-environment and
grouped-by-method views (computed on `summary_df` after the in-place
rounding of lines 143–147) aggregate the *rounded* per-file metrics, not the
unrounded ones. -/
theorem c4_rounding_once_groups_use_rounded (files : List DiscoveredFile)
    (rows : List FinalRow)
    (h : (main_run (some files)).result = RunResult.written rows) :
    List.Perm rows
      (((processAll files).entries.map fun e =>
          (e, method_full (allParamKeys (processAll files).entries) e)).map
        (roundRow (allParamKeys (processAll files).entries)))
    ∧ (∀ k : String, groupHorizonMean rows (fun r => r.Environment) k =
        proundDigits 4 (pmean (((processAll files).entries.filter
            fun e => e.Environment = k).map
          fun e => (((pAstypeInt (proundDigits 0 e.Horizon)).getD 0 : ℤ) : ℚ))))
    ∧ (∀ k : String, groupHorizonMean rows (fun r => r.Method) k =
        proundDigits 4 (pmean (((processAll files).entries.filter
            fun e => e.Method = k).map
          fun e => (((pAstypeInt (proundDigits 0 e.Horizon)).getD 0 : ℤ) : ℚ))))
    ∧ (∀ k : String, groupSuccessMean rows (fun r => r.Environment) k =
        proundDigits 4 (pmean (pvalsToRats (((processAll files).entries.filter
            fun e => e.Environment = k).map
          fun e => proundDigits 4 e.Success_Rate)))) := by
  have hperm := rows_perm_of_written h
  refine ⟨hperm, ?_, ?_, ?_⟩
  · intro k
    have hp := grouped_metric_perm hperm (fun r => r.Environment) (fun e => e.Environment)
      (fun e => rfl) k (fun r => ((r.Horizon : ℤ) : ℚ))
    rw [groupHorizonMean, groupRows, pmean_perm hp]
    simp [roundRow]
  · intro k
    have hp := grouped_metric_perm hperm (fun r => r.Method) (fun e => e.Method)
      (fun e => rfl) k (fun r => ((r.Horizon : ℤ) : ℚ))
    rw [groupHorizonMean, groupRows, pmean_perm hp]
    simp [roundRow]
  · intro k
    have hp := grouped_metric_perm hperm (fun r => r.Environment) (fun e => e.Environment)
      (fun e => rfl) k (fun r => r.Success_Rate)
    have hp2 := hp.filterMap fun p => match p with
      | PVal.nan => none
      | PVal.val q => some q
    rw [groupSuccessMean, groupRows, pvalsToRats, pmean_perm hp2, ← pvalsToRats]
    simp [roundRow]

/-- The rows the pipeline writes for `c4files`. -/
def c4rows : List FinalRow :=
  [ { Environment := "Lift", Method := "A", Method_Full := "A", Horizon := 150,
      Success_Rate := PVal.val 0, N_Critical_Collisions := 1,
      Mean_Critical_Collisions := PVal.val 1, Method_Dir := "m", N_Runs := 1,
      paramCells := [] },
    { Environment := "Lift", Method := "B", Method_Full := "B", Horizon := 151,
      Success_Rate := PVal.val 1, N_Critical_Collisions := 0,
      Mean_Critical_Collisions := PVal.val 0, Method_Dir := "m", N_Runs := 1,
      paramCells := [] } ]

/-- Witness for `c4_rounding_once_groups_use_rounded` at `c4files`. -/
theorem c4_rounding_once_groups_use_rounded_witness :
    (main_run (some c4files)).result = RunResult.written c4rows
    ∧ groupHorizonMean c4rows (fun r => r.Environment) "Lift" =
        proundDigits 4 (pmean (((processAll c4files).entries.filter
            fun e => e.Environment = "Lift").map
          fun e => (((pAstypeInt (proundDigits 0 e.Horizon)).getD 0 : ℤ) : ℚ))) :=
  ⟨by with_unfolding_all decide,
   (c4_rounding_once_groups_use_rounded c4files c4rows
     (by with_unfolding_all decide)).2.1 "Lift"⟩
